import Mathlib

/-!
Verification development for the Script Content Model of the
unlockmylead platform backend.

The definitions below are a shallow embedding of
`src/backend/src/models/Script.js` and
`src/backend/src/services/ScriptService.js`:

* JavaScript objects holding script `content` are modelled by the
  JSON-like inductive type `JValue`.
* `JSON.stringify` is modelled by `JValue.stringify` (including the
  string-escaping rules of the JSON standard; floating point numbers do
  not occur in any content handled here, so numeric leaves carry `Int`).
* The global regular expression `/\x7b([^\x7d]+)\x7d/g` used by
  `extractVariables` and `replaceVariables` is modelled by a single
  left-to-right scan (`scanAux` / `replaceAux`): a match starts at a
  literal brace character, collects the maximal nonempty run of
  characters other than the closing brace, and requires a closing brace;
  successive matches are non-overlapping and leftmost, exactly as
  `RegExp.exec` / `String.replace` behave for this pattern.
* The `Script` class constructor, `validate`, `createVersion`,
  `updateMetrics` and the Firestore-backed service operations are
  modelled with explicit state passing over a pure association-list
  store; JavaScript falsy-default expressions such as
  `data.version || 1` are translated field by field.
-/

set_option maxHeartbeats 1000000

/-- JSON-like values: the shape of the `content` (and `settings`) fields of
a script.  Mirrors what `JSON.stringify` can serialize from the data the
Script model handles: strings, numbers, booleans, null, arrays and plain
objects (ordered field lists). -/
inductive JValue where
  | str (s : String)
  | num (n : Int)
  | bool (b : Bool)
  | null
  | arr (elems : List JValue)
  | obj (fields : List (String × JValue))

/-- JavaScript truthiness of a `JValue` (empty string, 0, `false` and
`null` are falsy; arrays and objects are always truthy). -/
def JValue.truthy : JValue → Bool
  | .str s => !s.isEmpty
  | .num n => n != 0
  | .bool b => b
  | .null => false
  | .arr _ => true
  | .obj _ => true

/-- Lowercase hexadecimal digit, as used by JSON \u escapes. -/
def hexDigit (n : Nat) : Char :=
  if n < 10 then Char.ofNat (48 + n) else Char.ofNat (87 + n)

/-- JSON escaping of one character, as performed by `JSON.stringify`:
quote and backslash are escaped, the usual control-character shorthands
are used, all remaining control characters get a \u00XX escape, and
every other character (braces included) is left as itself. -/
def escapeChar (c : Char) : List Char :=
  if c = '"' then ['\\', '"']
  else if c = '\\' then ['\\', '\\']
  else if c.toNat = 8 then ['\\', 'b']
  else if c.toNat = 9 then ['\\', 't']
  else if c.toNat = 10 then ['\\', 'n']
  else if c.toNat = 12 then ['\\', 'f']
  else if c.toNat = 13 then ['\\', 'r']
  else if c.toNat < 32 then ['\\', 'u', '0', '0', hexDigit (c.toNat / 16), hexDigit (c.toNat % 16)]
  else [c]

/-- Body of a JSON string literal: every character escaped. -/
def escapeString (s : String) : List Char :=
  (s.toList.map escapeChar).flatten

/-- A JSON string literal: escaped body surrounded by double quotes. -/
def jsonQuote (s : String) : List Char :=
  '"' :: escapeString s ++ ['"']

mutual

/-- Model of `JSON.stringify`, producing the serialized character list.  Used by
`extractVariables`, which runs the token regex over this serialization
of the whole content structure (so the braces of object literals take
part in the matching). -/
def JValue.stringify : JValue → List Char
  | .str s => jsonQuote s
  | .num n => (toString n).toList
  | .bool b => if b then ['t', 'r', 'u', 'e'] else ['f', 'a', 'l', 's', 'e']
  | .null => ['n', 'u', 'l', 'l']
  | .arr elems => '[' :: stringifyArr elems ++ [']']
  | .obj fields => '{' :: stringifyObj fields ++ ['}']

/-- Comma-separated serialization of array elements. -/
def stringifyArr : List JValue → List Char
  | [] => []
  | [v] => JValue.stringify v
  | v :: vs => JValue.stringify v ++ ',' :: stringifyArr vs

/-- Comma-separated serialization of object fields. -/
def stringifyObj : List (String × JValue) → List Char
  | [] => []
  | [(k, v)] => jsonQuote k ++ ':' :: JValue.stringify v
  | (k, v) :: kvs => jsonQuote k ++ ':' :: JValue.stringify v ++ ',' :: stringifyObj kvs

end

/-- One left-to-right pass of the global token regex, collecting the
captured token of every match.  The optional accumulator is `none`
outside a candidate match and `some acc` (collected characters, most
recent first) after an opening brace.  A closing brace ends a match when
at least one character has been collected; an opening brace immediately
followed by a closing brace matches nothing (the pattern requires a
nonempty token), and an opening brace never followed by a closing brace
matches nothing either. -/
def scanAux : Option (List Char) → List Char → List (List Char)
  | _, [] => []
  | none, c :: rest => if c = '{' then scanAux (some []) rest else scanAux none rest
  | some acc, c :: rest =>
    if c = '}' then
      match acc with
      | [] => scanAux none rest
      | _ => acc.reverse :: scanAux none rest
    else scanAux (some (c :: acc)) rest

/-- All captured tokens of the global regex over a character list, in
match order (with repetitions). -/
def scanTokens (l : List Char) : List String :=
  (scanAux none l).map (fun t => String.mk t)

/-- Insertion into a JavaScript `Set` keeps the first occurrence of each
element; this helper deduplicates keeping first occurrences. -/
def firstDedupAux : List String → List String → List String
  | _, [] => []
  | seen, x :: xs => if x ∈ seen then firstDedupAux seen xs else x :: firstDedupAux (x :: seen) xs

/-- Deduplicate a list keeping the first occurrence of each element, in
order — the behaviour of `Array.from(new Set(list))`. -/
def firstDedup (l : List String) : List String :=
  firstDedupAux [] l

/-- Model of `Script.extractVariables` applied to a content value: serialize with
`JSON.stringify`, run the token regex over the serialization, and return
the unique captured tokens in first-occurrence order. -/
def extractVariablesContent (c : JValue) : List String :=
  firstDedup (scanTokens c.stringify)

/-- The replacement chosen for one matched token by the callback
`(match, variable) => variableValues[variable] || match`: the mapped
value when the token is a key of the map and its value is truthy (a
non-empty string), otherwise the whole matched text, braces included. -/
def substToken (m : List (String × String)) (tok : List Char) : List Char :=
  match m.lookup (String.mk tok) with
  | some v => if v = "" then '{' :: tok ++ ['}'] else v.toList
  | none => '{' :: tok ++ ['}']

/-- Model of `String.replace` with the global token regex: the same scan as
`scanAux`, but emitting output — unmatched text verbatim and each match
replaced by `substToken`.  An opening brace with no later closing brace
leaves the rest of the string untouched. -/
def replaceAux (m : List (String × String)) : Option (List Char) → List Char → List Char
  | none, [] => []
  | some acc, [] => '{' :: acc.reverse
  | none, c :: rest => if c = '{' then replaceAux m (some []) rest else c :: replaceAux m none rest
  | some acc, c :: rest =>
    if c = '}' then
      match acc with
      | [] => '{' :: '}' :: replaceAux m none rest
      | _ => substToken m acc.reverse ++ replaceAux m none rest
    else replaceAux m (some (c :: acc)) rest

/-- The `replaceInString` helper of `Script.replaceVariables`. -/
def replaceInString (m : List (String × String)) (s : String) : String :=
  String.mk (replaceAux m none s.toList)

mutual

/-- The `replaceInObject` helper of `Script.replaceVariables`: arrays
and objects are rebuilt with every element / field value processed
recursively, strings go through `replaceInString`, and every other leaf
passes through unchanged. -/
def replaceInObject (m : List (String × String)) : JValue → JValue
  | .arr elems => .arr (replaceArr m elems)
  | .obj fields => .obj (replaceObj m fields)
  | .str s => .str (replaceInString m s)
  | .num n => .num n
  | .bool b => .bool b
  | .null => .null

/-- Element-wise recursion of `replaceInObject` over an array. -/
def replaceArr (m : List (String × String)) : List JValue → List JValue
  | [] => []
  | v :: vs => replaceInObject m v :: replaceArr m vs

/-- Field-wise recursion of `replaceInObject` over an object (keys are
not substituted, only values). -/
def replaceObj (m : List (String × String)) : List (String × JValue) → List (String × JValue)
  | [] => []
  | (k, v) :: kvs => (k, replaceInObject m v) :: replaceObj m kvs

end

example : JValue.stringify (JValue.obj [("a", JValue.str "x")]) = "\x7b\"a\":\"x\"\x7d".toList := rfl

example : extractVariablesContent (JValue.str "Hi {firstName} from {company}") = ["firstName", "company"] := rfl

example : extractVariablesContent (JValue.str "Hi {firstName} and {firstName}") = ["firstName"] := rfl

example : extractVariablesContent (JValue.obj [("opening", JValue.str "Hello")]) = ["\"opening\":\"Hello\""] := rfl

example : replaceInObject [("firstName", "Ann")] (JValue.obj [("opening", JValue.str "Hi {firstName}")]) = JValue.obj [("opening", JValue.str "Hi Ann")] := rfl

example : replaceInObject [] (JValue.obj [("opening", JValue.str "Hi {firstName}")]) = JValue.obj [("opening", JValue.str "Hi {firstName}")] := rfl

example : replaceInObject [("firstName", "")] (JValue.str "Hi {firstName}") = JValue.str "Hi {firstName}" := rfl

/-- The stored `performance_metrics` record.  Rates are JavaScript
numbers; no operation in the modelled core performs arithmetic on them,
so they are carried as integers, and `last_used` is a nullable
timestamp. -/
structure Metrics where
  total_uses : Int
  success_rate : Int
  average_duration : Int
  conversion_rate : Int
  last_used : Option Nat
deriving Repr, DecidableEq

/-- The zero/null baseline installed by the constructor default, by
`createVersion` and by `duplicateScript`. -/
def baselineMetrics : Metrics :=
  ⟨0, 0, 0, 0, none⟩

/-- A partial metrics record, as passed to `updateMetrics` (a present
`last_used` key in the JavaScript argument is always overwritten, so it
is not modelled). -/
structure MetricsPatch where
  total_uses : Option Int := none
  success_rate : Option Int := none
  average_duration : Option Int := none
  conversion_rate : Option Int := none
deriving Repr, DecidableEq

/-- The raw record accepted by the `Script` constructor: every field
optional (`none` models an absent or `undefined`/`null` property).
Timestamps are abstract ticks.  The field `vars` models the JavaScript
property `variables` (that identifier is reserved in Lean). -/
structure ScriptData where
  id : Option String := none
  name : Option String := none
  description : Option String := none
  type : Option String := none
  industry : Option String := none
  language : Option String := none
  tone : Option String := none
  objective : Option String := none
  content : Option JValue := none
  vars : Option (List String) := none
  settings : Option JValue := none
  performance_metrics : Option Metrics := none
  tags : Option (List String) := none
  status : Option String := none
  created_by : Option String := none
  created_at : Option Nat := none
  updated_at : Option Nat := none
  version : Option Nat := none
  parent_script_id : Option String := none

/-- Model of `data.f || dflt` for a string-valued field: an absent or empty
(falsy) string yields the default. -/
def resolveStr (d : Option String) (dflt : String) : String :=
  match d with
  | none => dflt
  | some s => if s = "" then dflt else s

/-- Model of `data.f || null` for a nullable string field: absent, null and the
empty string all collapse to null. -/
def resolveOptStr : Option String → Option String
  | none => none
  | some s => if s = "" then none else some s

/-- Model of `data.f || dflt` for a structured field: a falsy provided value
(empty string, 0, false, null) yields the default. -/
def resolveJ (d : Option JValue) (dflt : JValue) : JValue :=
  match d with
  | none => dflt
  | some v => if v.truthy then v else dflt

/-- Model of `data.version || 1`: absent or 0 (falsy) yields 1. -/
def resolveVersion : Option Nat → Nat
  | none => 1
  | some v => if v = 0 then 1 else v

/-- Constructor default for `content`: the empty-shaped document with
all five sub-fields present. -/
def defaultContent : JValue :=
  .obj [("opening", .str ""), ("main_points", .arr []),
        ("objection_handling", .obj []), ("closing", .str ""),
        ("fallback_responses", .arr [])]

/-- Constructor default for `settings` (voice speed 1.0 and pitch 0.0
are carried as the integers 1 and 0; nothing reads them back). -/
def defaultSettings : JValue :=
  .obj [("max_duration", .num 300), ("retry_attempts", .num 3),
        ("voice_settings", .obj [("voice_id", .str "en-US-Standard-A"),
                                 ("speed", .num 1), ("pitch", .num 0)]),
        ("ai_behavior", .obj [("interruption_handling", .bool true),
                              ("sentiment_adaptation", .bool true),
                              ("conversation_flow", .str "adaptive")])]

/-- A constructed `Script` instance: every field resolved to its
defaulted value.  The field `vars` models the JavaScript property
`variables`. -/
structure Script where
  id : Option String
  name : String
  description : String
  type : String
  industry : String
  language : String
  tone : String
  objective : String
  content : JValue
  vars : List String
  settings : JValue
  performance_metrics : Metrics
  tags : List String
  status : String
  created_by : String
  created_at : Nat
  updated_at : Nat
  version : Nat
  parent_script_id : Option String

/-- The `Script` constructor: each field is the given value when truthy,
otherwise the documented default; `now` stands for `new Date()`.
Construction never fails. -/
def mkScript (data : ScriptData) (now : Nat) : Script where
  id := resolveOptStr data.id
  name := resolveStr data.name ""
  description := resolveStr data.description ""
  type := resolveStr data.type "call"
  industry := resolveStr data.industry ""
  language := resolveStr data.language "en"
  tone := resolveStr data.tone "professional"
  objective := resolveStr data.objective ""
  content := resolveJ data.content defaultContent
  vars := data.vars.getD []
  settings := resolveJ data.settings defaultSettings
  performance_metrics := data.performance_metrics.getD baselineMetrics
  tags := data.tags.getD []
  status := resolveStr data.status "draft"
  created_by := resolveStr data.created_by ""
  created_at := data.created_at.getD now
  updated_at := data.updated_at.getD now
  version := resolveVersion data.version
  parent_script_id := resolveOptStr data.parent_script_id

/-- Property access `v.k` on a content value: defined for objects,
`undefined` (none) for every other shape. -/
def JValue.getProp (v : JValue) (k : String) : Option JValue :=
  match v with
  | .obj fields => (fields.find? (fun kv => kv.1 == k)).map (fun kv => kv.2)
  | _ => none

/-- Truthiness of `v.k` (an absent property is falsy). -/
def propTruthy (v : JValue) (k : String) : Bool :=
  match v.getProp k with
  | some w => w.truthy
  | none => false

/-- Whether `v.k.length === 0` evaluates to true: only for an empty
array or an empty string (for any other shape, `.length` is not the
number 0). -/
def propLengthZero (v : JValue) (k : String) : Bool :=
  match v.getProp k with
  | some (.arr l) => l.isEmpty
  | some (.str s) => s.isEmpty
  | _ => false

/-- Whitespace as stripped by `String.prototype.trim` (the content
relevant here is ASCII). -/
def isWsChar (c : Char) : Bool :=
  c = ' ' || c = '\t' || c = '\n' || c = '\r' || c.toNat = 11 || c.toNat = 12

/-- Model of `String.prototype.trim`: strip leading and trailing whitespace. -/
def jsTrim (s : String) : String :=
  String.mk ((((s.toList.dropWhile isWsChar).reverse.dropWhile isWsChar).reverse))

/-- Result of `Script.validate`. -/
structure ValidationResult where
  isValid : Bool
  errors : List String
deriving Repr, DecidableEq

/-- Model of `Script.validate`: accumulates every violated rule in source order
and never short-circuits. -/
def Script.validate (s : Script) : ValidationResult :=
  let errors :=
    (if s.name = "" ∨ jsTrim s.name = "" then ["Script name is required"] else []) ++
    (if s.name ≠ "" ∧ s.name.length > 100 then ["Script name must be less than 100 characters"] else []) ++
    (if s.type ∉ ["call", "sms", "email"] then ["Script type must be call, sms, or email"] else []) ++
    (if s.tone ∉ ["professional", "casual", "friendly", "assertive"] then ["Invalid tone specified"] else []) ++
    (if s.status ∉ ["draft", "active", "archived"] then ["Invalid status specified"] else []) ++
    (if s.type = "call" ∧ propTruthy s.content "opening" = false then ["Opening script is required for call scripts"] else []) ++
    (if s.type = "sms" ∧ (propTruthy s.content "main_points" = false ∨ propLengthZero s.content "main_points" = true) then ["Main points are required for SMS scripts"] else [])
  { isValid := errors.isEmpty, errors := errors }

/-- Spreading a `Script` instance back into a raw record
(`{...script}`): every field present with its current value. -/
def Script.toData (s : Script) : ScriptData where
  id := s.id
  name := some s.name
  description := some s.description
  type := some s.type
  industry := some s.industry
  language := some s.language
  tone := some s.tone
  objective := some s.objective
  content := some s.content
  vars := some s.vars
  settings := some s.settings
  performance_metrics := some s.performance_metrics
  tags := some s.tags
  status := some s.status
  created_by := some s.created_by
  created_at := some s.created_at
  updated_at := some s.updated_at
  version := some s.version
  parent_script_id := s.parent_script_id

/-- Model of `Script.extractVariables`: the Variable Engine run over
`this.content`. -/
def Script.extractVariables (s : Script) : List String :=
  extractVariablesContent s.content

/-- Model of `Script.replaceVariables`: a copy of the script whose `content` is
the substitution result; every other field is carried over unchanged. -/
def Script.replaceVariables (s : Script) (variableValues : List (String × String)) : Script :=
  { s with content := replaceInObject variableValues s.content }

/-- Model of `Script.updateMetrics`: shallow-merges the given partial metrics
over `performance_metrics`, then unconditionally stamps `last_used` and
`updated_at` with the current time. -/
def Script.updateMetrics (s : Script) (metrics : MetricsPatch) (now : Nat) : Script :=
  { s with
    performance_metrics :=
      { total_uses := metrics.total_uses.getD s.performance_metrics.total_uses
        success_rate := metrics.success_rate.getD s.performance_metrics.success_rate
        average_duration := metrics.average_duration.getD s.performance_metrics.average_duration
        conversion_rate := metrics.conversion_rate.getD s.performance_metrics.conversion_rate
        last_used := some now }
    updated_at := now }

/-- Model of `Script.createVersion`: rebuilds through the constructor from the
spread of the source with no id, incremented version, lineage pointer to
the source id, fresh timestamps and baseline metrics. -/
def Script.createVersion (s : Script) (now : Nat) : Script :=
  mkScript { s.toData with
    id := none
    version := some (s.version + 1)
    parent_script_id := s.id
    created_at := some now
    updated_at := some now
    performance_metrics := some baselineMetrics } now

/-- The failure modes of the lifecycle service.  The JavaScript code
throws plain `Error` objects whose messages identify the failure kind
(`Validation failed: ...`, `Script not found`, `Access denied`, or a
storage error passed through); each message family is one constructor. -/
inductive ServiceError where
  | validationError (message : String)
  | notFound
  | accessDenied
  | storageError (message : String)
deriving Repr, DecidableEq

/-- The persistence collaborator: stored records keyed by document id.
Stored records carry no id field of their own (`toFirestore` deletes
it), so their `id` component is `none`. -/
abbrev Store := List (String × Script)

/-- Model of `Script.fromFirestore`: rebuild an entity from a stored record by
running the constructor on the document data together with the document
id (stored timestamps are carried over; they are only defaulted when
absent). -/
def Script.fromFirestore (docId : String) (stored : Script) (now : Nat) : Script :=
  mkScript { stored.toData with id := some docId } now

/-- Overwrite the record stored under `scriptId` (the effect of a
Firestore `update` that lists every field). -/
def storeUpdate (store : Store) (scriptId : String) (s : Script) : Store :=
  store.map (fun kv => if kv.1 = scriptId then (kv.1, s) else kv)

/-- Model of `ScriptService.getScript`: fetch by id; absent documents fail with
the not-found error; when a truthy (non-empty) `userId` is supplied and
differs from the stored `created_by`, fail with the access-denied error
without returning the script. -/
def ScriptService.getScript (store : Store) (scriptId : String) (userId : Option String) (now : Nat) : Except ServiceError Script :=
  match store.lookup scriptId with
  | none => .error .notFound
  | some stored =>
    let script := Script.fromFirestore scriptId stored now
    match userId with
    | some u => if u ≠ "" ∧ script.created_by ≠ u then .error .accessDenied else .ok script
    | none => .ok script

/-- Model of `ScriptService.createScript`: construct with `created_by = userId`
and fresh timestamps, validate, and on failure throw the joined error
list without writing; on success recompute `variables`, persist the
record under a fresh document id, and return the entity with that id. -/
def ScriptService.createScript (store : Store) (scriptData : ScriptData) (userId : String) (now : Nat) (newId : String) : Store × Except ServiceError Script :=
  let script := mkScript { scriptData with created_by := some userId, created_at := some now, updated_at := some now } now
  let validation := script.validate
  if validation.isValid then
    let script := { script with vars := script.extractVariables }
    ((newId, { script with id := none }) :: store, .ok { script with id := some newId })
  else
    (store, .error (.validationError ("Validation failed: " ++ String.intercalate ", " validation.errors)))

/-- Shallow merge `{...base, ...patch}` of two raw records: a field
present in the patch wins. -/
def ScriptData.mergeOver (base patch : ScriptData) : ScriptData where
  id := patch.id <|> base.id
  name := patch.name <|> base.name
  description := patch.description <|> base.description
  type := patch.type <|> base.type
  industry := patch.industry <|> base.industry
  language := patch.language <|> base.language
  tone := patch.tone <|> base.tone
  objective := patch.objective <|> base.objective
  content := patch.content <|> base.content
  vars := patch.vars <|> base.vars
  settings := patch.settings <|> base.settings
  performance_metrics := patch.performance_metrics <|> base.performance_metrics
  tags := patch.tags <|> base.tags
  status := patch.status <|> base.status
  created_by := patch.created_by <|> base.created_by
  created_at := patch.created_at <|> base.created_at
  updated_at := patch.updated_at <|> base.updated_at
  version := patch.version <|> base.version
  parent_script_id := patch.parent_script_id <|> base.parent_script_id

/-- Model of `ScriptService.updateScript`: load with ownership check, rebuild a
`Script` from `{...existing, ...patch, id, updated_at}`, revalidate,
recompute `variables`, and overwrite the stored record; on a validation
failure nothing is written. -/
def ScriptService.updateScript (store : Store) (scriptId : String) (updateData : ScriptData) (userId : Option String) (now : Nat) : Store × Except ServiceError Script :=
  match ScriptService.getScript store scriptId userId now with
  | .error e => (store, .error e)
  | .ok existingScript =>
    let updatedScript := mkScript { ScriptData.mergeOver existingScript.toData updateData with id := some scriptId, updated_at := some now } now
    let validation := updatedScript.validate
    if validation.isValid then
      let updatedScript := { updatedScript with vars := updatedScript.extractVariables }
      (storeUpdate store scriptId { updatedScript with id := none, updated_at := now }, .ok updatedScript)
    else
      (store, .error (.validationError ("Validation failed: " ++ String.intercalate ", " validation.errors)))

/-- Model of `ScriptService.duplicateScript`: load the source (with ownership
check), spread it into a new record with no id, the requested or
derived copy name, fresh timestamps and baseline metrics — the version
and lineage fields of the source are carried along by the spread — then
run the ordinary create path. -/
def ScriptService.duplicateScript (store : Store) (scriptId : String) (userId : String) (newName : Option String) (now : Nat) (newId : String) : Store × Except ServiceError Script :=
  match ScriptService.getScript store scriptId (some userId) now with
  | .error e => (store, .error e)
  | .ok originalScript =>
    let dupName := match newName with
      | some n => if n = "" then originalScript.name ++ " (Copy)" else n
      | none => originalScript.name ++ " (Copy)"
    let duplicatedScript := mkScript { originalScript.toData with
      id := none
      name := some dupName
      created_at := some now
      updated_at := some now
      performance_metrics := some baselineMetrics } now
    ScriptService.createScript store duplicatedScript.toData userId now newId

/-- Model of `ScriptService.createVersion`: load the source (with ownership
check), derive the next version through `Script.createVersion`, then
run the ordinary create path. -/
def ScriptService.createVersion (store : Store) (scriptId : String) (userId : String) (now : Nat) (newId : String) : Store × Except ServiceError Script :=
  match ScriptService.getScript store scriptId (some userId) now with
  | .error e => (store, .error e)
  | .ok originalScript =>
    ScriptService.createScript store (originalScript.createVersion now).toData userId now newId

/-- Model of `ScriptService.updateMetrics`: a direct field-path update against
storage (no ownership check, no validation): merge the given metric
fields and stamp `last_used` and `updated_at`.  A missing document makes
the storage collaborator fail; that failure is passed through. -/
def ScriptService.updateMetrics (store : Store) (scriptId : String) (metrics : MetricsPatch) (now : Nat) : Store × Except ServiceError Unit :=
  match store.lookup scriptId with
  | none => (store, .error (.storageError "NOT_FOUND"))
  | some stored => (storeUpdate store scriptId (stored.updateMetrics metrics now), .ok ())

theorem scanAux_nil (st : Option (List Char)) : scanAux st [] = [] := by
  cases st <;> rfl

theorem scanAux_none_cons (c : Char) (l : List Char) :
    scanAux none (c :: l) = if c = '{' then scanAux (some []) l else scanAux none l := rfl

theorem scanAux_some_cons (acc : List Char) (c : Char) (l : List Char) :
    scanAux (some acc) (c :: l) =
      if c = '}' then
        match acc with
        | [] => scanAux none l
        | _ => acc.reverse :: scanAux none l
      else scanAux (some (c :: acc)) l := rfl

theorem scanAux_none_lbrace (l : List Char) : scanAux none ('{' :: l) = scanAux (some []) l := by
  rw [scanAux_none_cons, if_pos rfl]

theorem scanAux_none_cons_ne {c : Char} (h : c ≠ '{') (l : List Char) :
    scanAux none (c :: l) = scanAux none l := by
  rw [scanAux_none_cons, if_neg h]

theorem scanAux_some_rbrace_nil (l : List Char) : scanAux (some []) ('}' :: l) = scanAux none l := rfl

theorem scanAux_some_rbrace_cons (a : Char) (acc l : List Char) :
    scanAux (some (a :: acc)) ('}' :: l) = (a :: acc).reverse :: scanAux none l := rfl

theorem scanAux_some_cons_ne {c : Char} (h : c ≠ '}') (acc l : List Char) :
    scanAux (some acc) (c :: l) = scanAux (some (c :: acc)) l := by
  rw [scanAux_some_cons, if_neg h]

theorem scanAux_inside_no_rbrace (l : List Char) :
    ∀ acc : List Char, (∀ c ∈ l, c ≠ '}') → scanAux (some acc) l = [] := by
  induction l with
  | nil => intro acc _; rfl
  | cons c l ih =>
    intro acc h
    rw [scanAux_some_cons_ne (h c (List.mem_cons_self c l))]
    exact ih (c :: acc) (fun d hd => h d (List.mem_cons_of_mem c hd))

theorem scanAux_inside_run (t : List Char) :
    ∀ (acc l : List Char), (∀ c ∈ t, c ≠ '}') →
      scanAux (some acc) (t ++ l) = scanAux (some (t.reverse ++ acc)) l := by
  induction t with
  | nil => intro acc l _; simp
  | cons c t ih =>
    intro acc l h
    rw [List.cons_append, scanAux_some_cons_ne (h c (List.mem_cons_self c t)),
        ih (c :: acc) l (fun d hd => h d (List.mem_cons_of_mem c hd))]
    simp [List.reverse_cons, List.append_assoc]

theorem scanAux_skip (p : List Char) :
    ∀ l : List Char, (∀ c ∈ p, c ≠ '{') → scanAux none (p ++ l) = scanAux none l := by
  induction p with
  | nil => intro l _; rfl
  | cons c p ih =>
    intro l h
    rw [List.cons_append, scanAux_none_cons_ne (h c (List.mem_cons_self c p))]
    exact ih l (fun d hd => h d (List.mem_cons_of_mem c hd))

theorem scanAux_drop_last (l : List Char) :
    ∀ (st : Option (List Char)) (c : Char), c ≠ '}' → scanAux st (l ++ [c]) = scanAux st l := by
  induction l with
  | nil =>
    intro st c h
    cases st with
    | none =>
      rw [List.nil_append, scanAux_none_cons]
      split <;> simp [scanAux_nil]
    | some acc =>
      rw [List.nil_append, scanAux_some_cons_ne h]
      simp [scanAux_nil]
  | cons a l ih =>
    intro st c h
    cases st with
    | none =>
      rw [List.cons_append, scanAux_none_cons, scanAux_none_cons]
      split <;> exact ih _ c h
    | some acc =>
      by_cases ha : a = '}'
      · subst ha
        cases acc with
        | nil =>
          rw [List.cons_append, scanAux_some_rbrace_nil, scanAux_some_rbrace_nil]
          exact ih none c h
        | cons x xs =>
          rw [List.cons_append, scanAux_some_rbrace_cons, scanAux_some_rbrace_cons, ih none c h]
      · rw [List.cons_append, scanAux_some_cons_ne ha, scanAux_some_cons_ne ha]
        exact ih _ c h

theorem replaceAux_none_nil (m : List (String × String)) : replaceAux m none [] = [] := rfl

theorem replaceAux_some_nil (m : List (String × String)) (acc : List Char) :
    replaceAux m (some acc) [] = '{' :: acc.reverse := rfl

theorem replaceAux_none_cons (m : List (String × String)) (c : Char) (l : List Char) :
    replaceAux m none (c :: l) =
      if c = '{' then replaceAux m (some []) l else c :: replaceAux m none l := rfl

theorem replaceAux_some_cons (m : List (String × String)) (acc : List Char) (c : Char) (l : List Char) :
    replaceAux m (some acc) (c :: l) =
      if c = '}' then
        match acc with
        | [] => '{' :: '}' :: replaceAux m none l
        | _ => substToken m acc.reverse ++ replaceAux m none l
      else replaceAux m (some (c :: acc)) l := rfl

theorem replaceAux_none_lbrace (m : List (String × String)) (l : List Char) :
    replaceAux m none ('{' :: l) = replaceAux m (some []) l := by
  rw [replaceAux_none_cons, if_pos rfl]

theorem replaceAux_none_cons_ne (m : List (String × String)) {c : Char} (h : c ≠ '{') (l : List Char) :
    replaceAux m none (c :: l) = c :: replaceAux m none l := by
  rw [replaceAux_none_cons, if_neg h]

theorem replaceAux_some_rbrace_nil (m : List (String × String)) (l : List Char) :
    replaceAux m (some []) ('}' :: l) = '{' :: '}' :: replaceAux m none l := rfl

theorem replaceAux_some_rbrace_cons (m : List (String × String)) (a : Char) (acc l : List Char) :
    replaceAux m (some (a :: acc)) ('}' :: l) =
      substToken m (a :: acc).reverse ++ replaceAux m none l := rfl

theorem replaceAux_some_cons_ne (m : List (String × String)) {c : Char} (h : c ≠ '}') (acc l : List Char) :
    replaceAux m (some acc) (c :: l) = replaceAux m (some (c :: acc)) l := by
  rw [replaceAux_some_cons, if_neg h]

theorem replaceAux_skip (m : List (String × String)) (p : List Char) :
    ∀ l : List Char, (∀ c ∈ p, c ≠ '{') →
      replaceAux m none (p ++ l) = p ++ replaceAux m none l := by
  induction p with
  | nil => intro l _; rfl
  | cons c p ih =>
    intro l h
    rw [List.cons_append, replaceAux_none_cons_ne m (h c (List.mem_cons_self c p)),
        ih l (fun d hd => h d (List.mem_cons_of_mem c hd)), List.cons_append]

theorem replaceAux_inside_run (m : List (String × String)) (t : List Char) :
    ∀ (acc l : List Char), (∀ c ∈ t, c ≠ '}') →
      replaceAux m (some acc) (t ++ l) = replaceAux m (some (t.reverse ++ acc)) l := by
  induction t with
  | nil => intro acc l _; simp
  | cons c t ih =>
    intro acc l h
    rw [List.cons_append, replaceAux_some_cons_ne m (h c (List.mem_cons_self c t)),
        ih (c :: acc) l (fun d hd => h d (List.mem_cons_of_mem c hd))]
    simp [List.reverse_cons, List.append_assoc]

theorem mem_firstDedupAux (l : List String) :
    ∀ (seen : List String) (x : String), x ∈ firstDedupAux seen l ↔ x ∈ l ∧ x ∉ seen := by
  induction l with
  | nil => intro seen x; simp [firstDedupAux]
  | cons a l ih =>
    intro seen x
    by_cases ha : a ∈ seen
    · rw [firstDedupAux, if_pos ha, ih]
      constructor
      · rintro ⟨hl, hs⟩; exact ⟨List.mem_cons_of_mem a hl, hs⟩
      · rintro ⟨hl, hs⟩
        rcases List.mem_cons.mp hl with h | h
        · exact absurd (h ▸ ha) hs
        · exact ⟨h, hs⟩
    · rw [firstDedupAux, if_neg ha, List.mem_cons, ih]
      constructor
      · rintro (h | ⟨hl, hs⟩)
        · subst h; exact ⟨List.mem_cons_self _ _, ha⟩
        · exact ⟨List.mem_cons_of_mem a hl, fun hx => hs (List.mem_cons_of_mem a hx)⟩
      · rintro ⟨hl, hs⟩
        by_cases hx : x = a
        · exact Or.inl hx
        · rcases List.mem_cons.mp hl with h | h
          · exact absurd h hx
          · exact Or.inr ⟨h, fun hy => (List.mem_cons.mp hy).elim hx hs⟩

theorem mem_firstDedup (l : List String) (x : String) : x ∈ firstDedup l ↔ x ∈ l := by
  rw [firstDedup, mem_firstDedupAux]
  simp

theorem firstDedupAux_nodup (l : List String) : ∀ seen : List String, (firstDedupAux seen l).Nodup := by
  induction l with
  | nil => intro seen; simp [firstDedupAux]
  | cons a l ih =>
    intro seen
    by_cases ha : a ∈ seen
    · rw [firstDedupAux, if_pos ha]; exact ih seen
    · rw [firstDedupAux, if_neg ha]
      refine List.nodup_cons.mpr ⟨?_, ih _⟩
      intro hmem
      rw [mem_firstDedupAux] at hmem
      exact hmem.2 (List.mem_cons_self a seen)

theorem firstDedupAux_sublist (l : List String) :
    ∀ seen : List String, (firstDedupAux seen l).Sublist l := by
  induction l with
  | nil => intro seen; simp [firstDedupAux]
  | cons a l ih =>
    intro seen
    by_cases ha : a ∈ seen
    · rw [firstDedupAux, if_pos ha]
      exact (ih seen).trans (List.sublist_cons_self a l)
    · rw [firstDedupAux, if_neg ha]
      exact (ih (a :: seen)).cons₂ a

theorem firstDedup_nodup (l : List String) : (firstDedup l).Nodup :=
  firstDedupAux_nodup l []

theorem firstDedup_sublist (l : List String) : (firstDedup l).Sublist l :=
  firstDedupAux_sublist l []

theorem scanAux_sound (l : List Char) :
    ∀ st : Option (List Char),
      (∀ acc, st = some acc → ∀ c ∈ acc, c ≠ '}') →
      ∀ t ∈ scanAux st l,
        t ≠ [] ∧ (∀ c ∈ t, c ≠ '}') ∧
        ((∃ pre post, l = pre ++ '{' :: (t ++ '}' :: post)) ∨
         (∃ acc post mid, st = some acc ∧ t = acc.reverse ++ mid ∧ l = mid ++ '}' :: post)) := by
  induction l with
  | nil =>
    intro st _ t ht
    rw [scanAux_nil] at ht
    cases ht
  | cons c rest ih =>
    intro st hst t ht
    cases st with
    | none =>
      by_cases hc : c = '{'
      · subst hc
        rw [scanAux_none_lbrace] at ht
        obtain ⟨hne, hnr, hdisj⟩ :=
          ih (some []) (fun acc heq => by injection heq with h; subst h; intro d hd; cases hd) t ht
        refine ⟨hne, hnr, Or.inl ?_⟩
        rcases hdisj with ⟨pre, post, heq⟩ | ⟨acc, post, mid, hacc, htm, hrest⟩
        · exact ⟨'{' :: pre, post, by rw [heq, List.cons_append]⟩
        · injection hacc with h
          subst h
          simp only [List.reverse_nil, List.nil_append] at htm
          subst htm
          exact ⟨[], post, by rw [hrest, List.nil_append]⟩
      · rw [scanAux_none_cons_ne hc] at ht
        obtain ⟨hne, hnr, hdisj⟩ := ih none (fun acc heq => by cases heq) t ht
        refine ⟨hne, hnr, Or.inl ?_⟩
        rcases hdisj with ⟨pre, post, heq⟩ | ⟨acc, post, mid, hacc, htm, hrest⟩
        · exact ⟨c :: pre, post, by rw [heq, List.cons_append]⟩
        · cases hacc
    | some acc =>
      have haccw : ∀ d ∈ acc, d ≠ '}' := hst acc rfl
      by_cases hc : c = '}'
      · subst hc
        cases acc with
        | nil =>
          rw [scanAux_some_rbrace_nil] at ht
          obtain ⟨hne, hnr, hdisj⟩ := ih none (fun acc heq => by cases heq) t ht
          refine ⟨hne, hnr, Or.inl ?_⟩
          rcases hdisj with ⟨pre, post, heq⟩ | ⟨acc2, post, mid, hacc, htm, hrest⟩
          · exact ⟨'}' :: pre, post, by rw [heq, List.cons_append]⟩
          · cases hacc
        | cons x xs =>
          rw [scanAux_some_rbrace_cons] at ht
          rcases List.mem_cons.mp ht with hhead | htail
          · subst hhead
            refine ⟨by simp, ?_, Or.inr ⟨x :: xs, rest, [], rfl, by simp, rfl⟩⟩
            intro d hd
            exact haccw d (List.mem_reverse.mp hd)
          · obtain ⟨hne, hnr, hdisj⟩ := ih none (fun acc heq => by cases heq) t htail
            refine ⟨hne, hnr, Or.inl ?_⟩
            rcases hdisj with ⟨pre, post, heq⟩ | ⟨acc2, post, mid, hacc, htm, hrest⟩
            · exact ⟨'}' :: pre, post, by rw [heq, List.cons_append]⟩
            · cases hacc
      · rw [scanAux_some_cons_ne hc] at ht
        have hcons : ∀ d ∈ c :: acc, d ≠ '}' := by
          intro d hd
          rcases List.mem_cons.mp hd with h | h
          · exact h ▸ hc
          · exact haccw d h
        obtain ⟨hne, hnr, hdisj⟩ :=
          ih (some (c :: acc)) (fun acc2 heq => by injection heq with h; exact h ▸ hcons) t ht
        rcases hdisj with ⟨pre, post, heq⟩ | ⟨acc2, post, mid, hacc, htm, hrest⟩
        · exact ⟨hne, hnr, Or.inl ⟨c :: pre, post, by rw [heq, List.cons_append]⟩⟩
        · injection hacc with h
          subst h
          refine ⟨hne, hnr, Or.inr ⟨acc, post, c :: mid, rfl, ?_, by rw [hrest, List.cons_append]⟩⟩
          rw [htm]
          simp [List.reverse_cons, List.append_assoc]

/-- Characters that `JSON.stringify` serializes as themselves (not
escaped): everything except the quote, the backslash and control
characters. -/
def plainChar (c : Char) : Bool :=
  (c != '"') && (c != '\\') && decide (32 ≤ c.toNat)

theorem escapeChar_plain {c : Char} (h : plainChar c = true) : escapeChar c = [c] := by
  rw [plainChar, Bool.and_eq_true, Bool.and_eq_true] at h
  obtain ⟨⟨h1, h2⟩, h3⟩ := h
  rw [bne_iff_ne] at h1 h2
  rw [decide_eq_true_eq] at h3
  rw [escapeChar, if_neg h1, if_neg h2, if_neg (by omega), if_neg (by omega),
      if_neg (by omega), if_neg (by omega), if_neg (by omega), if_neg (by omega)]

theorem escapeList_plain (l : List Char) (h : ∀ c ∈ l, plainChar c = true) :
    (l.map escapeChar).flatten = l := by
  induction l with
  | nil => rfl
  | cons c l ih =>
    rw [List.map_cons, List.flatten_cons, escapeChar_plain (h c (List.mem_cons_self c l)),
        ih (fun d hd => h d (List.mem_cons_of_mem c hd))]
    rfl

theorem escapeString_plain (s : String) (h : ∀ c ∈ s.toList, plainChar c = true) :
    escapeString s = s.toList :=
  escapeList_plain s.toList h

/-- A substitution value able to remove its placeholder without leaving
or creating one: non-empty, brace-free and serialized unescaped. -/
def goodVal (v : String) : Prop :=
  v ≠ "" ∧ ∀ c ∈ v.toList, c ≠ '{' ∧ c ≠ '}' ∧ plainChar c = true

instance goodVal.decidable (v : String) : Decidable (goodVal v) := by
  unfold goodVal
  infer_instance

theorem lookup_good {m : List (String × String)} (hm : ∀ kv ∈ m, goodVal kv.2)
    {k : String} {v : String} (h : m.lookup k = some v) : goodVal v := by
  induction m with
  | nil => cases h
  | cons kv m ih =>
    rw [List.lookup_cons] at h
    cases hk : (k == kv.1) with
    | true =>
      rw [hk] at h
      injection h with h
      exact h ▸ hm kv (List.mem_cons_self kv m)
    | false =>
      rw [hk] at h
      exact ih (fun kv2 hkv2 => hm kv2 (List.mem_cons_of_mem kv hkv2)) h

theorem substToken_some {m : List (String × String)} {tok : List Char} {v : String}
    (h : m.lookup (String.mk tok) = some v) (hv : v ≠ "") : substToken m tok = v.toList := by
  rw [substToken, h]
  show (if v = "" then '{' :: tok ++ ['}'] else v.toList) = v.toList
  rw [if_neg hv]

theorem substToken_some_empty {m : List (String × String)} {tok : List Char}
    (h : m.lookup (String.mk tok) = some "") : substToken m tok = '{' :: tok ++ ['}'] := by
  rw [substToken, h]
  rfl

theorem substToken_none {m : List (String × String)} {tok : List Char}
    (h : m.lookup (String.mk tok) = none) : substToken m tok = '{' :: tok ++ ['}'] := by
  rw [substToken, h]

theorem substToken_plain {m : List (String × String)} (hm : ∀ kv ∈ m, goodVal kv.2)
    {tok : List Char} (htok : ∀ c ∈ tok, plainChar c = true) :
    ∀ c ∈ substToken m tok, plainChar c = true := by
  have hlit : ∀ c ∈ '{' :: tok ++ ['}'], plainChar c = true := by
    intro c hc
    rcases List.mem_cons.mp hc with h | h
    · subst h; decide
    · rcases List.mem_append.mp h with h | h
      · exact htok c h
      · rw [List.mem_singleton] at h; subst h; decide
  cases hl : m.lookup (String.mk tok) with
  | none => rw [substToken_none hl]; exact hlit
  | some v =>
    by_cases hv : v = ""
    · subst hv; rw [substToken_some_empty hl]; exact hlit
    · rw [substToken_some hl hv]
      intro c hc
      exact ((lookup_good hm hl).2 c hc).2.2

theorem replaceAux_plain (l : List Char) :
    ∀ (st : Option (List Char)) (m : List (String × String)),
      (∀ kv ∈ m, goodVal kv.2) →
      (∀ c ∈ l, plainChar c = true) →
      (∀ acc, st = some acc → ∀ c ∈ acc, plainChar c = true) →
      ∀ c ∈ replaceAux m st l, plainChar c = true := by
  induction l with
  | nil =>
    intro st m _ _ hst c hc
    cases st with
    | none => cases hc
    | some acc =>
      rw [replaceAux_some_nil] at hc
      rcases List.mem_cons.mp hc with h | h
      · subst h; decide
      · exact hst acc rfl c (List.mem_reverse.mp h)
  | cons a rest ih =>
    intro st m hm hl hst c hc
    have ha : plainChar a = true := hl a (List.mem_cons_self a rest)
    have hrest : ∀ d ∈ rest, plainChar d = true := fun d hd => hl d (List.mem_cons_of_mem a hd)
    cases st with
    | none =>
      by_cases hab : a = '{'
      · subst hab
        rw [replaceAux_none_lbrace] at hc
        exact ih (some []) m hm hrest (fun acc heq => by injection heq with h; subst h; intro d hd; cases hd) c hc
      · rw [replaceAux_none_cons_ne m hab] at hc
        rcases List.mem_cons.mp hc with h | h
        · exact h ▸ ha
        · exact ih none m hm hrest (fun acc heq => by cases heq) c h
    | some acc =>
      have haccp : ∀ d ∈ acc, plainChar d = true := hst acc rfl
      by_cases hab : a = '}'
      · subst hab
        cases acc with
        | nil =>
          rw [replaceAux_some_rbrace_nil] at hc
          rcases List.mem_cons.mp hc with h | h
          · subst h; decide
          · rcases List.mem_cons.mp h with h | h
            · subst h; decide
            · exact ih none m hm hrest (fun acc heq => by cases heq) c h
        | cons x xs =>
          rw [replaceAux_some_rbrace_cons] at hc
          rcases List.mem_append.mp hc with h | h
          · exact substToken_plain hm (fun d hd => haccp d (List.mem_reverse.mp hd)) c h
          · exact ih none m hm hrest (fun acc heq => by cases heq) c h
      · rw [replaceAux_some_cons_ne m hab] at hc
        refine ih (some (a :: acc)) m hm hrest ?_ c hc
        intro acc2 heq
        injection heq with h
        subst h
        intro d hd
        rcases List.mem_cons.mp hd with h | h
        · exact h ▸ ha
        · exact haccp d h

theorem replace_scrubs (l : List Char) :
    ∀ (st : Option (List Char)) (m : List (String × String)),
      (∀ kv ∈ m, goodVal kv.2) →
      (∀ acc, st = some acc → ∀ c ∈ acc, c ≠ '}') →
      (∀ t ∈ scanAux st l, (m.lookup (String.mk t)).isSome = true) →
      scanAux none (replaceAux m st l) = [] := by
  induction l with
  | nil =>
    intro st m _ hst _
    cases st with
    | none => rfl
    | some acc =>
      rw [replaceAux_some_nil, scanAux_none_lbrace]
      exact scanAux_inside_no_rbrace _ _ (fun d hd => hst acc rfl d (List.mem_reverse.mp hd))
  | cons a rest ih =>
    intro st m hm hst hcov
    cases st with
    | none =>
      by_cases hab : a = '{'
      · subst hab
        rw [replaceAux_none_lbrace]
        rw [scanAux_none_lbrace] at hcov
        exact ih (some []) m hm (fun acc heq => by injection heq with h; subst h; intro d hd; cases hd) hcov
      · rw [replaceAux_none_cons_ne m hab, scanAux_none_cons_ne hab]
        rw [scanAux_none_cons_ne hab] at hcov
        exact ih none m hm (fun acc heq => by cases heq) hcov
    | some acc =>
      have haccw : ∀ d ∈ acc, d ≠ '}' := hst acc rfl
      by_cases hab : a = '}'
      · subst hab
        cases acc with
        | nil =>
          rw [replaceAux_some_rbrace_nil, scanAux_none_lbrace, scanAux_some_rbrace_nil]
          rw [scanAux_some_rbrace_nil] at hcov
          exact ih none m hm (fun acc heq => by cases heq) hcov
        | cons x xs =>
          rw [replaceAux_some_rbrace_cons]
          rw [scanAux_some_rbrace_cons] at hcov
          have hhead := hcov ((x :: xs).reverse) (List.mem_cons_self _ _)
          obtain ⟨v, hv⟩ := Option.isSome_iff_exists.mp hhead
          have hgood := lookup_good hm hv
          rw [substToken_some hv hgood.1, scanAux_skip v.toList _ (fun d hd => (hgood.2 d hd).1)]
          exact ih none m hm (fun acc heq => by cases heq)
            (fun t ht => hcov t (List.mem_cons_of_mem _ ht))
      · rw [replaceAux_some_cons_ne m hab]
        rw [scanAux_some_cons_ne hab] at hcov
        refine ih (some (a :: acc)) m hm ?_ hcov
        intro acc2 heq
        injection heq with h
        subst h
        intro d hd
        rcases List.mem_cons.mp hd with h | h
        · exact h ▸ hab
        · exact haccw d h

theorem toList_mk (l : List Char) : (String.mk l).toList = l := rfl

theorem resolveOptStr_idem (o : Option String) :
    resolveOptStr (resolveOptStr o) = resolveOptStr o := by
  cases o with
  | none => rfl
  | some s =>
    by_cases h : s = ""
    · simp [resolveOptStr, h]
    · simp [resolveOptStr, h]

theorem resolveVersion_ne_zero (o : Option Nat) : resolveVersion o ≠ 0 := by
  cases o with
  | none => decide
  | some v =>
    rw [resolveVersion]
    split
    · simp
    · assumption

theorem resolveVersion_some {v : Nat} (h : v ≠ 0) : resolveVersion (some v) = v := by
  rw [resolveVersion, if_neg h]

theorem resolveJ_truthy (d : Option JValue) (dflt : JValue) (h : dflt.truthy = true) :
    (resolveJ d dflt).truthy = true := by
  cases d with
  | none => exact h
  | some v =>
    rw [resolveJ]
    split
    · assumption
    · exact h

theorem resolveJ_some_truthy {v dflt : JValue} (h : v.truthy = true) :
    resolveJ (some v) dflt = v := by
  rw [resolveJ, if_pos h]

theorem mkScript_version_ne_zero (d : ScriptData) (now : Nat) : (mkScript d now).version ≠ 0 :=
  resolveVersion_ne_zero d.version

theorem mkScript_content_truthy (d : ScriptData) (now : Nat) :
    (mkScript d now).content.truthy = true :=
  resolveJ_truthy d.content defaultContent rfl

theorem mkScript_settings_truthy (d : ScriptData) (now : Nat) :
    (mkScript d now).settings.truthy = true :=
  resolveJ_truthy d.settings defaultSettings rfl

theorem lookup_storeUpdate (store : Store) (sid : String) (x : Script) :
    ∀ stored : Script, store.lookup sid = some stored →
      (storeUpdate store sid x).lookup sid = some x := by
  induction store with
  | nil => intro stored h; cases h
  | cons kv store ih =>
    obtain ⟨k1, v1⟩ := kv
    intro stored h
    by_cases hk : k1 = sid
    · have hb : (sid == k1) = true := beq_iff_eq.mpr hk.symm
      rw [storeUpdate, List.map_cons, if_pos hk]
      simp only [List.lookup_cons, hb]
    · have hb : (sid == k1) = false := by
        rw [beq_eq_false_iff_ne]
        intro he
        exact hk he.symm
      rw [List.lookup_cons] at h
      rw [hb] at h
      rw [storeUpdate, List.map_cons, if_neg hk]
      simp only [List.lookup_cons, hb]
      exact ih stored h

/-- C7: for every script S (every script handled by the system is
produced by the `Script` constructor), `S.createVersion()` returns a
script with no id, version `S.version + 1`, `parent_script_id = S.id`,
content, settings and tags identical to S, `performance_metrics` reset
to the zero/null baseline (whose `last_used` is null), and fresh
timestamps. -/
theorem createVersion_shape (d : ScriptData) (n n2 : Nat) :
    ((mkScript d n).createVersion n2).id = none ∧
    ((mkScript d n).createVersion n2).version = (mkScript d n).version + 1 ∧
    ((mkScript d n).createVersion n2).parent_script_id = (mkScript d n).id ∧
    ((mkScript d n).createVersion n2).content = (mkScript d n).content ∧
    ((mkScript d n).createVersion n2).settings = (mkScript d n).settings ∧
    ((mkScript d n).createVersion n2).tags = (mkScript d n).tags ∧
    ((mkScript d n).createVersion n2).performance_metrics = baselineMetrics ∧
    baselineMetrics = ⟨0, 0, 0, 0, none⟩ ∧
    ((mkScript d n).createVersion n2).created_at = n2 ∧
    ((mkScript d n).createVersion n2).updated_at = n2 := by
  refine ⟨rfl, ?_, ?_, ?_, ?_, rfl, rfl, rfl, rfl, rfl⟩
  · exact resolveVersion_some (Nat.succ_ne_zero _)
  · exact resolveOptStr_idem d.id
  · exact resolveJ_some_truthy (mkScript_content_truthy d n)
  · exact resolveJ_some_truthy (mkScript_settings_truthy d n)

/-- C10: for every script S with an unset id (never persisted),
`S.createVersion()` has `parent_script_id = null` rather than a dangling
reference, because the constructor coerces a falsy `parent_script_id`
to null. -/
theorem createVersion_unset_parent (d : ScriptData) (n n2 : Nat)
    (h : (mkScript d n).id = none) :
    ((mkScript d n).createVersion n2).parent_script_id = none := by
  show resolveOptStr (mkScript d n).id = none
  rw [h]
  rfl

/-- C10 witness: a concrete never-persisted script. -/
theorem createVersion_unset_parent_witness :
    ((mkScript {} 0).createVersion 1).parent_script_id = none :=
  createVersion_unset_parent {} 0 1 rfl

/-- C6 (amended): `getScript(id, ownerId)` fails with the not-found
error when no script with that id exists; when the script exists and a
truthy (non-empty) `ownerId` is supplied that differs from the stored
`created_by`, it fails with the access-denied error without returning
the script.  (A null or empty-string `ownerId` is falsy in the guard
`userId && created_by !== userId`, so it disables the ownership check.) -/
theorem getScript_spec (store : Store) (sid : String) (uid : Option String) (now : Nat) :
    (store.lookup sid = none →
      ScriptService.getScript store sid uid now = .error .notFound) ∧
    (∀ (stored : Script) (u : String),
      store.lookup sid = some stored → uid = some u → u ≠ "" →
      (Script.fromFirestore sid stored now).created_by ≠ u →
      ScriptService.getScript store sid uid now = .error .accessDenied) := by
  constructor
  · intro h
    rw [ScriptService.getScript, h]
  · intro stored u hlk huid hne hcb
    subst huid
    rw [ScriptService.getScript, hlk]
    show (if u ≠ "" ∧ (Script.fromFirestore sid stored now).created_by ≠ u
          then Except.error ServiceError.accessDenied
          else Except.ok (Script.fromFirestore sid stored now)) = Except.error ServiceError.accessDenied
    rw [if_pos ⟨hne, hcb⟩]

/-- A stored record used by concrete instances below: a valid call
script owned by user u1. -/
def demoStored : Script :=
  mkScript { name := some "Demo", type := some "call",
             content := some (JValue.obj [("opening", JValue.str "Hello")]),
             created_by := some "u1", created_at := some 0, updated_at := some 0 } 0

/-- A one-document store holding `demoStored` under id s1. -/
def demoStore : Store := [("s1", demoStored)]

/-- C6 witness: a missing id fails with not-found; a mismatched owner
fails with access-denied. -/
theorem getScript_spec_witness :
    ScriptService.getScript demoStore "missing" (some "u1") 0 = .error .notFound ∧
    ScriptService.getScript demoStore "s1" (some "u2") 0 = .error .accessDenied :=
  ⟨(getScript_spec demoStore "missing" (some "u1") 0).1 rfl,
   (getScript_spec demoStore "s1" (some "u2") 0).2 demoStored "u2" rfl rfl
     (by decide) (by decide)⟩

/-- C6 counterexample to the claim as stated: the script s1 exists with
stored `created_by = "u1"`, the supplied ownerId is the empty string
(which differs from "u1"), yet `getScript` succeeds and returns the
script instead of failing with the access-denied error, because an
empty-string ownerId is falsy and skips the ownership check. -/
theorem getScript_empty_owner_counterexample :
    (match ScriptService.getScript demoStore "s1" (some "") 0 with
     | .ok s => some s.created_by
     | .error _ => none) = some "u1" ∧
    (("u1" : String) == "") = false := by
  exact ⟨rfl, rfl⟩

/-- C5: for every raw record whose constructed Script (with
`created_by = ownerId` and fresh timestamps) fails `validate()`,
`createScript` fails with the validation error carrying the joined list
of all violated rules — a constructor distinct from the not-found,
access-denied and storage errors — and returns the storage collaborator
unchanged (no record is created). -/
theorem createScript_invalid (store : Store) (raw : ScriptData) (uid : String) (now : Nat) (newId : String)
    (h : (mkScript { raw with created_by := some uid, created_at := some now, updated_at := some now } now).validate.isValid = false) :
    ScriptService.createScript store raw uid now newId =
      (store, .error (.validationError ("Validation failed: " ++ String.intercalate ", "
        (mkScript { raw with created_by := some uid, created_at := some now, updated_at := some now } now).validate.errors))) ∧
    (∀ msg : String,
      ServiceError.validationError msg ≠ ServiceError.notFound ∧
      ServiceError.validationError msg ≠ ServiceError.accessDenied ∧
      ∀ msg2 : String, ServiceError.validationError msg ≠ ServiceError.storageError msg2) := by
  constructor
  · simp only [ScriptService.createScript]
    split
    · rename_i hcond
      rw [h] at hcond
      cases hcond
    · rfl
  · intro msg
    exact ⟨fun hx => ServiceError.noConfusion hx, fun hx => ServiceError.noConfusion hx,
           fun msg2 hx => ServiceError.noConfusion hx⟩

/-- C5 witness: the empty raw record violates the name rule and the
call-opening rule; `createScript` reports both, joined, and writes
nothing. -/
theorem createScript_invalid_witness :
    ScriptService.createScript [] {} "u9" 3 "n1" =
      ([], .error (.validationError "Validation failed: Script name is required, Opening script is required for call scripts")) :=
  ((createScript_invalid [] {} "u9" 3 "n1" (by decide)).1).trans rfl

theorem getScript_ok {store : Store} {sid : String} {uid : Option String} {now : Nat}
    {stored : Script} (hlk : store.lookup sid = some stored) {ex : Script}
    (h : ScriptService.getScript store sid uid now = .ok ex) :
    ex = Script.fromFirestore sid stored now := by
  rw [ScriptService.getScript] at h
  split at h
  · cases h
  · rename_i stored2 heq
    rw [hlk] at heq
    injection heq with heq
    subst heq
    split at h
    · rename_i u
      dsimp only at h
      split at h
      · cases h
      · exact (Except.ok.inj h).symm
    · exact (Except.ok.inj h).symm

/-- C2 (amended): `updateScript(id, patch, ownerId)` leaves the stored
`performance_metrics` unchanged for every patch record that does not
contain a `performance_metrics` key (the general spread carries the
existing value through and rewrites it unchanged), and any returned
script carries the unchanged metrics; `updateMetrics` is the operation
that rewrites the metric fields, always stamping `last_used`.  The
exclusion of `performance_metrics` from `updateScript` is not enforced
structurally: a patch that does contain the key overwrites it (see the
counterexample). -/
theorem updateScript_metrics_frame (store : Store) (sid : String) (patch : ScriptData)
    (uid : Option String) (now : Nat) (stored : Script)
    (hlk : store.lookup sid = some stored)
    (hp : patch.performance_metrics = none) :
    (((ScriptService.updateScript store sid patch uid now).1.lookup sid).map
        (fun s => s.performance_metrics)) = some stored.performance_metrics ∧
    (∀ s : Script, (ScriptService.updateScript store sid patch uid now).2 = .ok s →
      s.performance_metrics = stored.performance_metrics) ∧
    (∀ (s : Script) (a b c2 d2 : Int) (n : Nat),
      (Script.updateMetrics s ⟨some a, some b, some c2, some d2⟩ n).performance_metrics =
        ⟨a, b, c2, d2, some n⟩) := by
  have hup : ∀ ex : Script, ScriptService.getScript store sid uid now = .ok ex →
      (mkScript { ScriptData.mergeOver ex.toData patch with id := some sid, updated_at := some now } now).performance_metrics = stored.performance_metrics := by
    intro ex hex
    rw [getScript_ok hlk hex]
    show (patch.performance_metrics <|> some stored.performance_metrics).getD baselineMetrics =
      stored.performance_metrics
    rw [hp]
    rfl
  refine ⟨?_, ?_, fun s a b c2 d2 n => rfl⟩
  · cases hg : ScriptService.getScript store sid uid now with
    | error e =>
      simp only [ScriptService.updateScript, hg]
      rw [hlk]
      rfl
    | ok ex =>
      simp only [ScriptService.updateScript, hg]
      split
      · rw [lookup_storeUpdate store sid _ stored hlk]
        exact congrArg some (hup ex hg)
      · rw [hlk]
        rfl
  · intro s hs
    cases hg : ScriptService.getScript store sid uid now with
    | error e =>
      simp only [ScriptService.updateScript, hg] at hs
      cases hs
    | ok ex =>
      simp only [ScriptService.updateScript, hg] at hs
      split at hs
      · injection hs with hs
        subst hs
        exact hup ex hg
      · cases hs

/-- C2 witness: a patch without a `performance_metrics` key leaves the
stored metrics of s1 unchanged. -/
theorem updateScript_metrics_frame_witness :
    (((ScriptService.updateScript demoStore "s1" {} (some "u1") 3).1.lookup "s1").map
        (fun s => s.performance_metrics)) = some demoStored.performance_metrics :=
  (updateScript_metrics_frame demoStore "s1" {} (some "u1") 3 demoStored rfl rfl).1

/-- A patch record whose only field is `performance_metrics`. -/
def metricsPatchRecord : ScriptData :=
  { performance_metrics := some ⟨5, 6, 7, 8, some 9⟩ }

/-- C2 counterexample to the claim as stated: a patch record containing
a `performance_metrics` key makes `updateScript` overwrite the stored
metrics (here from the baseline to 5/6/7/8 with a last-used stamp), so
`updateScript` is not metrics-preserving for every patch and
`updateMetrics` is not the only operation able to change
`performance_metrics`. -/
theorem updateScript_overwrites_metrics_counterexample :
    (((ScriptService.updateScript demoStore "s1" metricsPatchRecord (some "u1") 3).1.lookup "s1").map
        (fun s => s.performance_metrics)) = some ⟨5, 6, 7, 8, some 9⟩ ∧
    demoStored.performance_metrics = baselineMetrics ∧
    decide ((⟨5, 6, 7, 8, some 9⟩ : Metrics) = baselineMetrics) = false := by
  exact ⟨rfl, rfl, rfl⟩

theorem toData_version (s : Script) : s.toData.version = some s.version := rfl

theorem toData_parent (s : Script) : s.toData.parent_script_id = s.parent_script_id := rfl

theorem createScript_ok_fields {store : Store} {raw : ScriptData} {uid : String} {now : Nat}
    {newId : String} {store2 : Store} {dup : Script}
    (hok : ScriptService.createScript store raw uid now newId = (store2, .ok dup)) :
    dup.version = resolveVersion raw.version ∧
    dup.parent_script_id = resolveOptStr raw.parent_script_id := by
  simp only [ScriptService.createScript] at hok
  split at hok
  · rw [Prod.mk.injEq] at hok
    obtain ⟨h1, h2⟩ := hok
    injection h2 with h2
    subst h2
    exact ⟨rfl, rfl⟩
  · rw [Prod.mk.injEq] at hok
    obtain ⟨h1, h2⟩ := hok
    cases h2

/-- C1 (amended): the script produced by a successful
`duplicateScript(id, ownerId, newName?)` carries the version and the
`parent_script_id` of the loaded source unchanged — the duplicate path
spreads the source record and resets only id, name, timestamps and
metrics, so `version = 1` and an unset `parent_script_id` hold only when
the source already has them. -/
theorem duplicateScript_preserves_lineage (store : Store) (sid uid : String)
    (newName : Option String) (now : Nat) (newId : String) (stored : Script)
    (store2 : Store) (dup : Script)
    (hlk : store.lookup sid = some stored)
    (hok : ScriptService.duplicateScript store sid uid newName now newId = (store2, .ok dup)) :
    dup.version = (Script.fromFirestore sid stored now).version ∧
    dup.parent_script_id = (Script.fromFirestore sid stored now).parent_script_id := by
  cases hg : ScriptService.getScript store sid (some uid) now with
  | error e =>
    simp only [ScriptService.duplicateScript, hg] at hok
    rw [Prod.mk.injEq] at hok
    cases hok.2
  | ok orig =>
    have horig : orig = Script.fromFirestore sid stored now := getScript_ok hlk hg
    subst horig
    simp only [ScriptService.duplicateScript, hg] at hok
    have hfields := createScript_ok_fields hok
    constructor
    · rw [hfields.1, toData_version, resolveVersion_some (mkScript_version_ne_zero _ _)]
      show resolveVersion (some (Script.fromFirestore sid stored now).version) =
        (Script.fromFirestore sid stored now).version
      exact resolveVersion_some (mkScript_version_ne_zero _ _)
    · rw [hfields.2, toData_parent]
      show resolveOptStr (resolveOptStr (Script.fromFirestore sid stored now).parent_script_id) =
        (Script.fromFirestore sid stored now).parent_script_id
      rw [resolveOptStr_idem]
      exact resolveOptStr_idem _

/-- A stored source script that is itself a second version with a
lineage pointer: version 2, parent p0, owned by u1. -/
def versionedStored : Script :=
  mkScript { name := some "Orig", type := some "call",
             content := some (JValue.obj [("opening", JValue.str "Hello")]),
             created_by := some "u1", version := some 2, parent_script_id := some "p0",
             created_at := some 0, updated_at := some 0 } 0

/-- A one-document store holding `versionedStored` under id s1. -/
def versionedStore : Store := [("s1", versionedStored)]

/-- The concrete run of `duplicateScript` on the versioned source. -/
def dupRun : Store × Except ServiceError Script :=
  ScriptService.duplicateScript versionedStore "s1" "u1" none 5 "s2"

/-- The script returned by the concrete duplicate run. -/
def dupResult : Script :=
  match dupRun.2 with
  | .ok s => s
  | .error _ => mkScript {} 0

/-- C1 witness: on the concrete versioned source the duplicate carries
the fetched source fields. -/
theorem duplicateScript_preserves_lineage_witness :
    dupResult.version = (Script.fromFirestore "s1" versionedStored 5).version ∧
    dupResult.parent_script_id = (Script.fromFirestore "s1" versionedStored 5).parent_script_id :=
  duplicateScript_preserves_lineage versionedStore "s1" "u1" none 5 "s2" versionedStored
    dupRun.1 dupResult rfl rfl

/-- C1 counterexample to the claim as stated: duplicating the stored
script with version 2 and parent p0 yields a duplicate whose version is
still 2 and whose `parent_script_id` is still p0 — not version 1 with an
unset parent. -/
theorem duplicateScript_counterexample :
    (dupRun.2.toOption.map (fun d => (d.version, d.parent_script_id))) = some (2, some "p0") ∧
    decide ((2, some "p0") = ((1 : Nat), (none : Option String))) = false := by
  exact ⟨rfl, rfl⟩

/-- C3 (amended): `replaceVariables` substitutes each matched `(token)`
placeholder in a string leaf with `valueMap[token]` exactly when the
token is a key of the map and its value is truthy — a non-empty string;
when the token is absent, or present with the empty string as value
(falsy, because the callback computes `valueMap[variable] || match`),
the literal placeholder text is kept.  Arrays and objects are rebuilt
element-wise, non-string leaves pass through, and the operation is a
pure function returning a new structure (the model is pure, so the
original content is never modified). -/
theorem replaceVariables_characterization :
    (∀ (m : List (String × String)) (pre tok post : List Char),
      (∀ c ∈ pre, c ≠ '{') → tok ≠ [] → (∀ c ∈ tok, c ≠ '}') →
      replaceAux m none (pre ++ '{' :: (tok ++ '}' :: post)) =
        pre ++ (substToken m tok ++ replaceAux m none post)) ∧
    (∀ (m : List (String × String)) (tok : List Char) (v : String),
      m.lookup (String.mk tok) = some v → v ≠ "" → substToken m tok = v.toList) ∧
    (∀ (m : List (String × String)) (tok : List Char),
      m.lookup (String.mk tok) = none → substToken m tok = '{' :: tok ++ ['}']) ∧
    (∀ (m : List (String × String)) (tok : List Char),
      m.lookup (String.mk tok) = some "" → substToken m tok = '{' :: tok ++ ['}']) ∧
    (∀ (m : List (String × String)) (s : String),
      replaceInObject m (.str s) = .str (String.mk (replaceAux m none s.toList))) ∧
    (∀ (m : List (String × String)) (elems : List JValue),
      replaceInObject m (.arr elems) = .arr (replaceArr m elems)) ∧
    (∀ (m : List (String × String)) (fields : List (String × JValue)),
      replaceInObject m (.obj fields) = .obj (replaceObj m fields)) ∧
    (∀ (m : List (String × String)) (n : Int), replaceInObject m (.num n) = .num n) ∧
    (∀ (m : List (String × String)) (s : Script),
      (s.replaceVariables m).content = replaceInObject m s.content ∧
      (s.replaceVariables m).name = s.name ∧ (s.replaceVariables m).vars = s.vars ∧
      (s.replaceVariables m).updated_at = s.updated_at) := by
  refine ⟨?_, fun m tok v h hv => substToken_some h hv, fun m tok h => substToken_none h,
    fun m tok h => substToken_some_empty h, fun m s => rfl, fun m elems => rfl,
    fun m fields => rfl, fun m n => rfl, fun m s => ⟨rfl, rfl, rfl, rfl⟩⟩
  intro m pre tok post hpre htok hnr
  rw [replaceAux_skip m pre _ hpre, replaceAux_none_lbrace,
      replaceAux_inside_run m tok [] ('}' :: post) hnr, List.append_nil]
  cases hrev : tok.reverse with
  | nil =>
    rw [List.reverse_eq_nil_iff] at hrev
    exact absurd hrev htok
  | cons a as =>
    rw [replaceAux_some_rbrace_cons, ← hrev, List.reverse_reverse]

/-- C3 witness: on the spec scenario content, the placeholder bound to
the non-empty value Ann is substituted. -/
theorem replaceVariables_characterization_witness :
    replaceAux [("firstName", "Ann")] none
        ("Hi ".toList ++ '{' :: ("firstName".toList ++ '}' :: [])) =
      "Hi ".toList ++ (substToken [("firstName", "Ann")] "firstName".toList ++
        replaceAux [("firstName", "Ann")] none []) ∧
    substToken [("firstName", "Ann")] "firstName".toList = "Ann".toList :=
  ⟨replaceVariables_characterization.1 [("firstName", "Ann")] "Hi ".toList "firstName".toList []
      (by decide) (by decide) (by decide),
   replaceVariables_characterization.2.1 [("firstName", "Ann")] "firstName".toList "Ann"
      (by decide) (by decide)⟩

/-- C3 counterexample to the claim as stated: with the token present as
a key but mapped to the empty string, the claim demands substitution
(result "") — the code keeps the literal placeholder because the empty
string is falsy in `valueMap[variable] || match`. -/
theorem replaceVariables_empty_value_counterexample :
    replaceInObject [("firstName", "")] (JValue.str "{firstName}") = JValue.str "{firstName}" ∧
    (("{firstName}" : String) == "") = false := by
  exact ⟨rfl, rfl⟩

/-- C4 (amended): for string content C whose characters are serialized
unescaped, and a value map all of whose values are non-empty, brace-free
and serialized unescaped, if the keys of the map cover every token of
`extractVariables(C)` then `extractVariables(replaceVariables(C, V))` is
empty.  The cover-alone statement of the claim fails for arbitrary
values (a value may itself contain a placeholder, and an empty-string
value is not substituted at all — see the counterexample), and for
object-shaped content the serialization braces produce tokens that no
substitution can remove. -/
theorem full_substitution_scrubs (s : String) (m : List (String × String))
    (hs : ∀ c ∈ s.toList, plainChar c = true)
    (hm : ∀ kv ∈ m, goodVal kv.2)
    (hcov : ∀ t ∈ extractVariablesContent (.str s), (m.lookup t).isSome = true) :
    extractVariablesContent (replaceInObject m (.str s)) = [] := by
  have hquote : (JValue.str s).stringify = '"' :: (s.toList ++ ['"']) := by
    show jsonQuote s = _
    rw [jsonQuote, escapeString_plain s hs, List.cons_append]
  have htok : scanAux none ((JValue.str s).stringify) = scanAux none s.toList := by
    rw [hquote, scanAux_none_cons_ne (show ('"' : Char) ≠ '{' by decide),
        scanAux_drop_last s.toList none '"' (by decide)]
  have hcov2 : ∀ t ∈ scanAux none s.toList, (m.lookup (String.mk t)).isSome = true := by
    intro t ht
    apply hcov (String.mk t)
    rw [extractVariablesContent, mem_firstDedup, scanTokens, htok]
    exact List.mem_map_of_mem _ ht
  have hout := replace_scrubs s.toList none m hm (fun acc heq => by cases heq) hcov2
  have houtp : ∀ c ∈ replaceAux m none s.toList, plainChar c = true :=
    replaceAux_plain s.toList none m hm hs (fun acc heq => by cases heq)
  have hq2chars : ∀ c ∈ (String.mk (replaceAux m none s.toList)).toList, plainChar c = true := by
    rw [toList_mk]
    exact houtp
  have hfin : scanAux none ((JValue.str (String.mk (replaceAux m none s.toList))).stringify) = [] := by
    have hq2 : (JValue.str (String.mk (replaceAux m none s.toList))).stringify =
        '"' :: ((String.mk (replaceAux m none s.toList)).toList ++ ['"']) := by
      show jsonQuote _ = _
      rw [jsonQuote, escapeString_plain _ hq2chars, List.cons_append]
    rw [hq2, toList_mk, scanAux_none_cons_ne (show ('"' : Char) ≠ '{' by decide),
        scanAux_drop_last _ none '"' (by decide), hout]
  show firstDedup (scanTokens ((JValue.str (String.mk (replaceAux m none s.toList))).stringify)) = []
  rw [scanTokens, hfin]
  rfl

/-- C4 witness: full substitution on the spec scenario content with a
plain non-empty value removes the only placeholder. -/
theorem full_substitution_scrubs_witness :
    extractVariablesContent (replaceInObject [("firstName", "Ann")] (JValue.str "Hi {firstName}")) = [] :=
  full_substitution_scrubs "Hi {firstName}" [("firstName", "Ann")] (by decide) (by decide) (by decide)

/-- C4 counterexample to the claim as stated: the map covers the only
token x of the content, but its value is itself the placeholder text
for y, so after full substitution a placeholder remains and
`extractVariables` of the result is not empty. -/
theorem full_substitution_counterexample :
    extractVariablesContent (JValue.str "{x}") = ["x"] ∧
    (List.lookup "x" [("x", "{y}")]).isSome = true ∧
    extractVariablesContent (replaceInObject [("x", "{y}")] (JValue.str "{x}")) = ["y"] ∧
    ((["y"] : List String) == []) = false := by
  exact ⟨rfl, rfl, rfl, rfl⟩

/-- C8 (amended): `extractVariables` returns, without duplicates and in
first-occurrence order, the tokens captured by the successive leftmost
non-overlapping matches of the token pattern over the JSON serialization
of the content (so the structural braces of the serialization take part
in the matching); every returned name is non-empty, free of the closing
brace, and occurs in the serialization wrapped in braces.  It is a pure
function of the content.  It does not return the name of every
brace-wrapped substring: overlapping candidates are skipped (see the
counterexample). -/
theorem extractVariables_characterization :
    (∀ c : JValue, (extractVariablesContent c).Nodup) ∧
    (∀ c : JValue, (extractVariablesContent c).Sublist (scanTokens c.stringify)) ∧
    (∀ (c : JValue) (t : String), t ∈ extractVariablesContent c ↔ t ∈ scanTokens c.stringify) ∧
    (∀ (c : JValue) (t : String), t ∈ extractVariablesContent c →
      t ≠ "" ∧ (∀ ch ∈ t.toList, ch ≠ '}') ∧
      ∃ pre post, c.stringify = pre ++ '{' :: (t.toList ++ '}' :: post)) ∧
    (∀ s : Script, s.extractVariables = extractVariablesContent s.content) := by
  refine ⟨fun c => firstDedup_nodup _, fun c => firstDedup_sublist _,
    fun c t => mem_firstDedup _ _, ?_, fun s => rfl⟩
  intro c t ht
  rw [extractVariablesContent, mem_firstDedup, scanTokens, List.mem_map] at ht
  obtain ⟨t2, ht2, rfl⟩ := ht
  obtain ⟨hne, hnr, hdisj⟩ :=
    scanAux_sound c.stringify none (fun acc heq => by cases heq) t2 ht2
  rcases hdisj with ⟨pre, post, heq⟩ | ⟨acc, post, mid, hacc, _, _⟩
  · refine ⟨?_, ?_, pre, post, heq⟩
    · intro h
      exact hne (congrArg String.data h)
    · rw [toList_mk]
      exact hnr
  · cases hacc

/-- C8 witness: on the spec scenario content the returned name is
non-empty, brace-free and occurs wrapped in braces in the
serialization. -/
theorem extractVariables_characterization_witness :
    ("firstName" : String) ≠ "" ∧ (∀ ch ∈ ("firstName" : String).toList, ch ≠ '}') ∧
    ∃ pre post, (JValue.str "Hi {firstName}").stringify =
      pre ++ '{' :: (("firstName" : String).toList ++ '}' :: post) :=
  extractVariables_characterization.2.2.2.1 (JValue.str "Hi {firstName}") "firstName" (by decide)

/-- C8 counterexample to the claim as stated: in the content string
with characters brace a brace b brace, both the name between the first
brace and the closing brace and the shorter name b appear as
brace-wrapped substrings, but the scan captures only the first
(leftmost, greedy-to-the-first-closing-brace) match, so b is not
returned — the result is not the set of names of all brace-wrapped
substrings occurring in the content.  (A second divergence, shown in
the last conjunct: on object content the serialization braces produce a
token that occurs in no string leaf.) -/
theorem extractVariables_counterexample :
    extractVariablesContent (JValue.str "\x7ba\x7bb\x7d") = ["a\x7bb"] ∧
    ("\x7ba\x7bb\x7d" : String) = "\x7ba" ++ "\x7bb\x7d" ++ "" ∧
    decide (("b" : String) ∈ extractVariablesContent (JValue.str "\x7ba\x7bb\x7d")) = false ∧
    extractVariablesContent (JValue.obj [("greeting", JValue.str "Hello")]) =
      ["\"greeting\":\"Hello\""] := by
  exact ⟨rfl, rfl, rfl, rfl⟩

/-- C9: the empty brace pair is never a variable: the token pattern
requires at least one character, so the empty name is never extracted,
and substitution passes over a literal empty brace pair unchanged (an
opening brace followed immediately by a closing brace is not a match). -/
theorem empty_braces_not_a_variable :
    (∀ c : JValue, "" ∉ extractVariablesContent c) ∧
    (∀ (m : List (String × String)) (post : List Char),
      replaceAux m none ('{' :: '}' :: post) = '{' :: '}' :: replaceAux m none post) ∧
    (∀ (m : List (String × String)) (pre post : List Char), (∀ ch ∈ pre, ch ≠ '{') →
      replaceAux m none (pre ++ '{' :: '}' :: post) =
        pre ++ '{' :: '}' :: replaceAux m none post) ∧
    (∀ m : List (String × String),
      replaceInObject m (JValue.str "\x7b\x7d") = JValue.str "\x7b\x7d") := by
  refine ⟨?_, fun m post => rfl, ?_, fun m => rfl⟩
  · intro c h
    rw [extractVariablesContent, mem_firstDedup, scanTokens, List.mem_map] at h
    obtain ⟨t2, ht2, heq⟩ := h
    obtain ⟨hne, _, _⟩ :=
      scanAux_sound c.stringify none (fun acc heq2 => by cases heq2) t2 ht2
    exact hne (congrArg String.data heq)
  · intro m pre post hpre
    rw [replaceAux_skip m pre _ hpre]
    rfl

/-- C9 witness: concrete instances of both parts. -/
theorem empty_braces_not_a_variable_witness :
    ("" ∉ extractVariablesContent (JValue.str "a\x7b\x7db")) ∧
    replaceAux [] none (("x" : String).toList ++ '{' :: '}' :: []) =
      ("x" : String).toList ++ '{' :: '}' :: replaceAux [] none [] :=
  ⟨empty_braces_not_a_variable.1 (JValue.str "a\x7b\x7db"),
   empty_braces_not_a_variable.2.2.1 [] ("x" : String).toList [] (by decide)⟩
